import Mathlib

/-!
Verification of the reworkit build-report pipeline.

The collector (`src/main.rs`) exposes `push_log` (multipart submission of one
build result) and `get_package_result` (query of all recorded results for one
package name), backed by a PostgreSQL table `build_result(name, arch, success,
log)` with a uniqueness constraint on `(name, arch)`.  The worker
(`worker/src/main.rs`) builds every package of a source tree and submits each
result to the collector with a bounded retry loop.

The embedding below models the handlers as pure functions over an explicit
table state; multipart bodies and HTTP header values are modelled as strings
(a `String` stands for the octet sequence of the part body).  Transport-level
and backend-connectivity failures are outside the pure model except where a
definition's doc comment says otherwise.
-/

namespace Reworkit

/-- One row of the relational `build_result` table, mirroring the `Package`
struct of `src/main.rs` (`name`, `arch`, `success`, `log`). -/
structure Package where
  name : String
  arch : String
  success : Bool
  log : String
deriving Repr, DecidableEq

/-- An HTTP header value as seen through `HeaderValue::to_str()`: either it
converts to a string or the conversion fails (non-visible-ASCII bytes). -/
inductive HeaderVal
  | readable (s : String)
  | unreadable
deriving Repr, DecidableEq

/-- One part of the multipart form: the optional field name reported by
`field.name()` and the body (`field.text()` / `field.bytes()`), modelled as a
string of bytes. -/
structure FieldPart where
  name : Option String
  body : String
deriving Repr, DecidableEq

/-- A `push_log` request: the `SECRET` header (absent, unreadable or readable)
and the multipart parts in stream order. -/
structure Request where
  secretHeader : Option HeaderVal
  parts : List FieldPart
deriving Repr, DecidableEq

/-- The collector state the handler can affect: the `build_result` table and
the list of spawned blob writes `(filename, accumulated log bytes)`. -/
structure CollectorState where
  table : List Package
  blobWrites : List (String × String)
deriving Repr, DecidableEq

/-- The secret check of `push_log` (`src/main.rs` lines 137-144):
`header.get("SECRET").and_then(to_str.ok).map(|x| x != secret).unwrap_or(true)`. -/
def secretMismatch (secret : String) : Option HeaderVal → Bool
  | some (HeaderVal.readable s) => s != secret
  | some HeaderVal.unreadable => true
  | none => true

/-- Accumulator of the field-parsing loop of `push_log` (lines 146-174). -/
structure ParsedFields where
  pkgname : Option String
  arch : Option String
  success : Option String
  logContent : String
deriving Repr, DecidableEq

/-- One iteration of the `while let Some(field) = form.next_field()` loop:
`package`, `arch` and `success` overwrite the accumulator (last part wins),
`log` bodies are appended in order, anything else is only logged. -/
def parseStep (acc : ParsedFields) (f : FieldPart) : ParsedFields :=
  if f.name == some "package" then { acc with pkgname := some f.body }
  else if f.name == some "arch" then { acc with arch := some f.body }
  else if f.name == some "success" then { acc with success := some f.body }
  else if f.name == some "log" then { acc with logContent := acc.logContent ++ f.body }
  else acc

/-- The whole field-parsing loop over a well-formed multipart stream. -/
def parseFields (parts : List FieldPart) : ParsedFields :=
  parts.foldl parseStep ⟨none, none, none, ""⟩

/-- Whether a part's field name is one the parsing loop acts on; every other
part falls into the handler's catch-all arm, which only logs it. -/
def recognizedField (f : FieldPart) : Bool :=
  f.name == some "package" || f.name == some "arch" ||
    f.name == some "success" || f.name == some "log"

/-- Whether a row of the table conflicts with the inserted row on the
`(name, arch)` uniqueness constraint. -/
def keyMatches (p r : Package) : Bool :=
  r.name == p.name && r.arch == p.arch

/-- The SQL statement of `push_log` (lines 196-203):
`INSERT INTO build_result VALUES ($1,$2,$3,$4) ON CONFLICT (name, arch) DO
UPDATE SET success=$3, log=$4`.  On conflict only `success` and `log` of the
conflicting row change (its key equals the inserted key anyway); without a
conflict the new row is added.  Under the table's uniqueness constraint at
most one row matches the key.  `updateOnConflict` is the `DO UPDATE` clause
applied to one stored row. -/
def updateOnConflict (p r : Package) : Package :=
  if keyMatches p r then { r with success := p.success, log := p.log } else r

/-- The whole upsert statement over the table. -/
def upsertRow (t : List Package) (p : Package) : List Package :=
  if t.any (keyMatches p) then t.map (updateOnConflict p) else t ++ [p]

/-- The error message sqlx produces for `Error::RowNotFound`. -/
def rowNotFoundMsg : String :=
  "no rows returned by a query that expected to return at least one row"

/-- `push_log` runs its upsert with `.fetch_one(&state.db)` (line 204).  The
statement has no `RETURNING` clause, so PostgreSQL executes the upsert (the
mutation persists under autocommit) but returns zero rows, and sqlx's
`fetch_one` then fails with `Error::RowNotFound`.  The pair returned here is
(table after the statement ran, result seen by the handler). -/
def upsertFetchOne (t : List Package) (p : Package) :
    List Package × Except String Unit :=
  (upsertRow t p, Except.error rowNotFoundMsg)

/-- The `push_log` handler (`src/main.rs` lines 130-208) on a well-formed
multipart stream: check the secret, run the parsing loop, require `package`,
`arch` and `success` (the `anyhow` context strings are the handler's error
messages), derive the filename, spawn the blob write, then upsert via
`fetch_one`.  Returns the state after the handler and the handler's
`Result<(), AnyhowError>`; `Except.error` is rendered by `AnyhowError` as an
HTTP 500 with the message, `Except.ok` as an HTTP 200 with an empty body. -/
def push_log (secret : String) (req : Request) (st : CollectorState) :
    CollectorState × Except String Unit :=
  if secretMismatch secret req.secretHeader then
    (st, Except.error "Invalid secret token")
  else
    let acc := parseFields req.parts
    match acc.pkgname with
    | none => (st, Except.error "Missing package field")
    | some pkgname =>
      match acc.arch with
      | none => (st, Except.error "Missing arch field")
      | some arch =>
        match acc.success with
        | none => (st, Except.error "Missing success field")
        | some successText =>
          let success := successText == "true"
          let filename := pkgname ++ "-" ++ arch ++ ".log"
          let st1 : CollectorState :=
            { st with blobWrites := st.blobWrites ++ [(filename, acc.logContent)] }
          let pkg : Package := ⟨pkgname, arch, success, filename⟩
          let res := upsertFetchOne st1.table pkg
          ({ st1 with table := res.1 }, res.2)

/-- The `get_package_result` handler (`src/main.rs` lines 115-128):
`SELECT name, arch, success, log FROM build_result WHERE name = $1` via
`fetch_all`, which returns all matching rows — an empty result set is not an
error.  Backend-connectivity failures (the only other failure source of
`fetch_all`) are outside this pure model.  `Except.ok v` is rendered as HTTP
200 with the JSON serialization of `v`. -/
def get_package_result (t : List Package) (name : String) :
    Except String (List Package) :=
  Except.ok (t.filter fun r => r.name == name)

/-- Outcome of one worker-side HTTP delivery as seen by reqwest:
`Client::send` returns an error only for transport-level failures (connection,
DNS, timeout, redirect problems); any received HTTP response — whatever its
status code — is returned as `Ok`. -/
inductive SendOutcome
  | transportError (msg : String)
  | response (status : Nat)
deriving Repr, DecidableEq

/-- The worker's `push_log` (`worker/src/main.rs` lines 166-192): builds the
multipart form and does `client.post(...).send().await?; Ok(())`.  It never
inspects the response status (no `error_for_status`), so only a transport
failure of `send` makes it return an error. -/
def worker_push_log (o : SendOutcome) : Except String Unit :=
  match o with
  | SendOutcome.transportError msg => Except.error msg
  | SendOutcome.response _ => Except.ok ()

/-- Whether one delivery attempt counts as a success for the retry loop
(`Ok(_) => break`). -/
def attemptOk (o : SendOutcome) : Bool :=
  match worker_push_log o with
  | Except.ok _ => true
  | Except.error _ => false

/-- The body of the retry loop `for i in 1..=3` of `work` (lines 142-160),
unrolled over a fuel bound: attempt `i`; on `Ok` break, on `Err` log, sleep
10 seconds and go on to attempt `i+1`.  Returns (number of attempts made,
whether an attempt returned `Ok`, the sleeps performed in seconds). -/
def submitGo (outcomes : Nat → SendOutcome) : Nat → Nat → Nat × Bool × List Nat
  | _, 0 => (0, false, [])
  | i, fuel + 1 =>
    match worker_push_log (outcomes i) with
    | Except.ok _ => (1, true, [])
    | Except.error _ =>
      let r := submitGo outcomes (i + 1) fuel
      (r.1 + 1, r.2.1, 10 :: r.2.2)

/-- The full submission retry loop: attempts numbered 1, 2, 3. -/
def submitRetry (outcomes : Nat → SendOutcome) : Nat × Bool × List Nat :=
  submitGo outcomes 1 3

/-- The per-package portion of `work` (lines 112-161) after the build step:
compress the captured log — a compression failure skips the package
(`continue`) — then run the submission retry loop.  The retry result is never
propagated (`work` carries no `?` on it), so the loop always proceeds to the
next package; the returned trace has one entry per package, `none` when
compression failed, otherwise the retry loop's outcome. -/
def workCycle (pkgs : List String) (compressOk : String → Bool)
    (outcomes : String → Nat → SendOutcome) :
    List (String × Option (Nat × Bool × List Nat)) :=
  pkgs.map fun p =>
    (p, if compressOk p then some (submitRetry (outcomes p)) else none)

/-- A node of the source tree under `tree_dir`: a plain file or a directory
with its children in filesystem-enumeration order. -/
inductive FSTree
  | file (fname : String)
  | dir (dname : String) (children : List FSTree)

/-- The entry name (`entry.file_name()`). -/
def FSTree.name : FSTree → String
  | FSTree.file n => n
  | FSTree.dir n _ => n

/-- `entry.file_type().is_dir()`. -/
def FSTree.isDir : FSTree → Bool
  | FSTree.file _ => false
  | FSTree.dir _ _ => true

/-- The entries yielded by `WalkDir::new(tree_dir).min_depth(2).max_depth(2)`
over the root's children: for each top-level directory `c1`, its children in
order, as pairs (first path component, entry).  Top-level files contribute no
depth-2 entries; unreadable entries (`if let Ok(entry)`) are outside the
model. -/
def walkDepth2 (root : List FSTree) : List (String × FSTree) :=
  root.flatMap fun t =>
    match t with
    | FSTree.file _ => []
    | FSTree.dir c1 cs => cs.map fun e => (c1, e)

/-- Substring containment on character lists (`str::contains` with a string
pattern). -/
def containsSub (needle : List Char) : List Char → Bool
  | [] => needle.isEmpty
  | c :: t => needle.isPrefixOf (c :: t) || containsSub needle t

/-- `haystack.contains(needle)` on strings. -/
def strContainsSub (hay needle : String) : Bool :=
  containsSub needle.toList hay.toList

/-- `list_packages` (`worker/src/main.rs` lines 203-223) on a tree rooted at
the path string `treeDir`: walk depth-2 entries; skip an entry when its full
path string contains the substring `"/.git"` or when its path starts
(component-wise) with `tree_dir/groups` or `tree_dir/assets` — for a depth-2
entry `tree_dir/c1/c2` the component-wise prefix test is exactly
`c1 = "groups"` resp. `c1 = "assets"`; of the rest keep the names of the
directories. -/
def list_packages (treeDir : String) (root : List FSTree) : List String :=
  (walkDepth2 root).filterMap fun ce =>
    if strContainsSub (treeDir ++ "/" ++ ce.1 ++ "/" ++ ce.2.name) "/.git"
        || ce.1 == "groups" || ce.1 == "assets" then
      none
    else if ce.2.isDir then some ce.2.name
    else none

/-- The listing claimed by the spec, following its words: the names of the
directories located two levels below the tree root, excluding any entry whose
path contains a version-control metadata segment (a path component equal to
`.git`) and any entry under the top-level directories `groups` or `assets`. -/
def claimedPackages (root : List FSTree) : List String :=
  (walkDepth2 root).filterMap fun ce =>
    if ce.1 == ".git" || ce.2.name == ".git"
        || ce.1 == "groups" || ce.1 == "assets" then
      none
    else if ce.2.isDir then some ce.2.name
    else none

/-- The uniqueness invariant of the `build_result` table: at most one row per
`(name, arch)` pair. -/
def uniqKeys (t : List Package) : Prop :=
  t.Pairwise fun a b => ¬(a.name = b.name ∧ a.arch = b.arch)

instance uniqKeysDecidable (t : List Package) : Decidable (uniqKeys t) := by
  unfold uniqKeys
  infer_instance

/-! ## Helper lemmas -/

theorem push_log_of_mismatch (secret : String) (req : Request) (st : CollectorState)
    (h : secretMismatch secret req.secretHeader = true) :
    push_log secret req st = (st, Except.error "Invalid secret token") := by
  simp [push_log, h]

theorem push_log_of_valid (secret : String) (req : Request) (st : CollectorState)
    (p a s L : String)
    (hs : secretMismatch secret req.secretHeader = false)
    (hp : parseFields req.parts = ⟨some p, some a, some s, L⟩) :
    push_log secret req st =
      ({ table := upsertRow st.table ⟨p, a, s == "true", p ++ "-" ++ a ++ ".log"⟩,
         blobWrites := st.blobWrites ++ [(p ++ "-" ++ a ++ ".log", L)] },
        Except.error rowNotFoundMsg) := by
  simp [push_log, hs, hp, upsertFetchOne]

/-! ## C1 -/

/-- C1: the claim says a fully valid submission whose upsert persists the row
gets a 200 with empty body.  The code instead runs the upsert with
`fetch_one` on a statement without a `RETURNING` clause: at the concrete valid
submission below the row is persisted in the table, yet the handler's result
is `RowNotFound`, rendered as HTTP 500 — the success path `Ok(())` is
unreachable. -/
theorem C1_upsert_persists_but_handler_errors :
    push_log "s3cret"
        ⟨some (HeaderVal.readable "s3cret"),
          [⟨some "package", "foo"⟩, ⟨some "arch", "amd64"⟩, ⟨some "success", "true"⟩]⟩
        ⟨[], []⟩ =
      (⟨[⟨"foo", "amd64", true, "foo-amd64.log"⟩], [("foo-amd64.log", "")]⟩,
        Except.error rowNotFoundMsg) := rfl

/-! ## C2 -/

/-- C2 counterexample: the claim says a query for a name absent from the store
returns an internal error (HTTP 500), not a success response.  With a store
holding only `bar`, querying `foo` goes through `fetch_all`, which returns the
empty row set, and the handler answers success (HTTP 200 with `[]`). -/
theorem C2_counterexample_missing_name_is_ok :
    get_package_result [⟨"bar", "amd64", true, "bar-amd64.log"⟩] "foo" =
      Except.ok [] := rfl

/-- C2 (amended): for every table holding no record under the queried name,
`get_package_result` returns a success response carrying the empty result
list; only a store failure would yield an internal error. -/
theorem C2_amended_missing_name_yields_empty (t : List Package) (name : String)
    (h : ∀ r ∈ t, r.name ≠ name) :
    get_package_result t name = Except.ok [] := by
  simp only [get_package_result, Except.ok.injEq]
  rw [List.filter_eq_nil_iff]
  intro r hr
  simpa using h r hr

/-- Witness for C2 (amended) at a concrete store and name. -/
theorem C2_amended_witness :
    (∀ r ∈ ([⟨"bar", "amd64", true, "bar-amd64.log"⟩] : List Package), r.name ≠ "foo") ∧
    get_package_result [⟨"bar", "amd64", true, "bar-amd64.log"⟩] "foo" = Except.ok [] :=
  ⟨by decide, C2_amended_missing_name_yields_empty _ "foo" (by decide)⟩

/-! ## C5 -/

/-- C5: for every request whose `SECRET` header is absent, unreadable, or not
exactly equal to the configured secret, `push_log` returns the authorization
error and leaves the state untouched (no blob write recorded, no table
change); the same result is obtained whatever the multipart parts are, i.e.
the rejection happens before any field is parsed. -/
theorem C5_bad_secret_rejected (secret : String) (req : Request) (st : CollectorState)
    (h : req.secretHeader = none ∨ req.secretHeader = some HeaderVal.unreadable ∨
         ∃ s, req.secretHeader = some (HeaderVal.readable s) ∧ s ≠ secret) :
    push_log secret req st = (st, Except.error "Invalid secret token") ∧
    ∀ parts2, push_log secret ⟨req.secretHeader, parts2⟩ st =
      (st, Except.error "Invalid secret token") := by
  have hb : secretMismatch secret req.secretHeader = true := by
    rcases h with h | h | ⟨s, h, hne⟩ <;> rw [h] <;> simp [secretMismatch]
    exact hne
  exact ⟨push_log_of_mismatch secret req st hb,
    fun parts2 => push_log_of_mismatch secret ⟨req.secretHeader, parts2⟩ st hb⟩

/-- Witness for C5 at a concrete request with a wrong readable secret. -/
theorem C5_witness :
    push_log "tok"
        ⟨some (HeaderVal.readable "wrong"), [⟨some "package", "foo"⟩]⟩ ⟨[], []⟩ =
      (⟨[], []⟩, Except.error "Invalid secret token") :=
  (C5_bad_secret_rejected "tok"
      ⟨some (HeaderVal.readable "wrong"), [⟨some "package", "foo"⟩]⟩ ⟨[], []⟩
      (Or.inr (Or.inr ⟨"wrong", rfl, by decide⟩))).1

/-! ## C6 -/

/-- C6: for every authorized request in which `package`, `arch` or `success`
is absent from the parsed fields, `push_log` returns the validation error
naming the (first, in the order package, arch, success) missing field and
leaves the state untouched: no table mutation and no blob write. -/
theorem C6_missing_field_rejected (secret : String) (req : Request) (st : CollectorState)
    (hs : secretMismatch secret req.secretHeader = false) :
    ((parseFields req.parts).pkgname = none →
      push_log secret req st = (st, Except.error "Missing package field")) ∧
    ((parseFields req.parts).pkgname.isSome = true →
      (parseFields req.parts).arch = none →
      push_log secret req st = (st, Except.error "Missing arch field")) ∧
    ((parseFields req.parts).pkgname.isSome = true →
      (parseFields req.parts).arch.isSome = true →
      (parseFields req.parts).success = none →
      push_log secret req st = (st, Except.error "Missing success field")) := by
  cases hq : parseFields req.parts with
  | mk pk ar su lc =>
    refine ⟨?_, ?_, ?_⟩
    · intro h
      have hpk : pk = none := h
      subst hpk
      simp [push_log, hs, hq]
    · intro hpk h
      have har : ar = none := h
      subst har
      cases pk with
      | none => simp at hpk
      | some x => simp [push_log, hs, hq]
    · intro hpk har h
      have hsu : su = none := h
      subst hsu
      cases pk with
      | none => simp at hpk
      | some x =>
        cases ar with
        | none => simp at har
        | some y => simp [push_log, hs, hq]

/-- Witness for C6 at a concrete authorized request lacking `package`. -/
theorem C6_witness :
    push_log "t"
        ⟨some (HeaderVal.readable "t"),
          [⟨some "arch", "amd64"⟩, ⟨some "success", "true"⟩]⟩ ⟨[], []⟩ =
      (⟨[], []⟩, Except.error "Missing package field") :=
  (C6_missing_field_rejected "t"
      ⟨some (HeaderVal.readable "t"),
        [⟨some "arch", "amd64"⟩, ⟨some "success", "true"⟩]⟩ ⟨[], []⟩
      (by decide)).1 (by decide)

/-! ## C3 -/

theorem updateOnConflict_name (p r : Package) :
    (updateOnConflict p r).name = r.name := by
  unfold updateOnConflict
  by_cases h : keyMatches p r = true <;> simp [h]

theorem updateOnConflict_arch (p r : Package) :
    (updateOnConflict p r).arch = r.arch := by
  unfold updateOnConflict
  by_cases h : keyMatches p r = true <;> simp [h]

theorem keyMatches_updateOnConflict (p r : Package) :
    keyMatches p (updateOnConflict p r) = keyMatches p r := by
  simp only [keyMatches, updateOnConflict_name, updateOnConflict_arch]

theorem updateOnConflict_of_no_conflict (p r : Package) (h : keyMatches p r = false) :
    updateOnConflict p r = r := by
  simp [updateOnConflict, h]

theorem filter_map_updateOnConflict (p : Package) (t : List Package) :
    (t.map (updateOnConflict p)).filter (fun r => !(keyMatches p r)) =
      t.filter (fun r => !(keyMatches p r)) := by
  induction t with
  | nil => rfl
  | cons r rest ih =>
    simp only [List.map_cons, List.filter_cons, keyMatches_updateOnConflict]
    by_cases h : keyMatches p r = true
    · simp [h, ih]
    · have h2 : keyMatches p r = false := by simpa using h
      simp [h2, updateOnConflict_of_no_conflict p r h2, ih]

theorem uniqKeys_upsertRow (t : List Package) (p : Package) (h : uniqKeys t) :
    uniqKeys (upsertRow t p) := by
  unfold upsertRow
  by_cases hany : t.any (keyMatches p) = true
  · simp only [hany, if_true]
    unfold uniqKeys at h ⊢
    rw [List.pairwise_map]
    refine h.imp ?_
    intro a b hab
    simpa only [updateOnConflict_name, updateOnConflict_arch] using hab
  · have hf : t.any (keyMatches p) = false := by simpa using hany
    simp only [hf, Bool.false_eq_true, if_false]
    unfold uniqKeys at h ⊢
    rw [List.pairwise_append]
    refine ⟨h, List.pairwise_singleton _ _, ?_⟩
    intro a ha b hb
    simp only [List.mem_singleton] at hb
    intro hcon
    rw [hb] at hcon
    rcases hcon with ⟨h1, h2⟩
    have hx : keyMatches p a = true := by simp [keyMatches, h1, h2]
    have hz := List.any_eq_true.mpr ⟨a, ha, hx⟩
    rw [hz] at hf
    simp at hf

theorem mem_upsertRow_of_key_ne (t : List Package) (p r : Package)
    (hr : r ∈ t) (hk : keyMatches p r = false) : r ∈ upsertRow t p := by
  unfold upsertRow
  by_cases hany : t.any (keyMatches p) = true
  · simp only [hany, if_true]
    exact List.mem_map.mpr ⟨r, hr, updateOnConflict_of_no_conflict p r hk⟩
  · have hf : t.any (keyMatches p) = false := by simpa using hany
    simp only [hf, Bool.false_eq_true, if_false]
    exact List.mem_append_left _ hr

/-- C3: a `push_log` upsert for the key of `p` preserves the table's
uniqueness invariant, the restriction of the table to the rows whose
`(name, arch)` key differs from the key of `p` is exactly unchanged (in
particular every other architecture of the same package keeps its row), and
every such row is still present after the upsert. -/
theorem C3_upsert_preserves_invariant (t : List Package) (p : Package) (h : uniqKeys t) :
    uniqKeys (upsertRow t p) ∧
    (upsertRow t p).filter (fun r => !(keyMatches p r)) =
      t.filter (fun r => !(keyMatches p r)) ∧
    ∀ r ∈ t, keyMatches p r = false → r ∈ upsertRow t p := by
  refine ⟨uniqKeys_upsertRow t p h, ?_,
    fun r hr hk => mem_upsertRow_of_key_ne t p r hr hk⟩
  unfold upsertRow
  by_cases hany : t.any (keyMatches p) = true
  · simp only [hany, if_true]
    exact filter_map_updateOnConflict p t
  · have hf : t.any (keyMatches p) = false := by simpa using hany
    simp only [hf, Bool.false_eq_true, if_false, List.filter_append]
    have hpp : keyMatches p p = true := by simp [keyMatches]
    simp [hpp]

/-- Witness for C3: resubmitting `foo`/`amd64` with a new outcome keeps the
invariant and leaves the `arm64` row of `foo` untouched. -/
theorem C3_witness :
    uniqKeys
      [⟨"foo", "amd64", true, "foo-amd64.log"⟩, ⟨"foo", "arm64", true, "foo-arm64.log"⟩] ∧
    uniqKeys
      (upsertRow
        [⟨"foo", "amd64", true, "foo-amd64.log"⟩, ⟨"foo", "arm64", true, "foo-arm64.log"⟩]
        ⟨"foo", "amd64", false, "foo-amd64.log"⟩) ∧
    (upsertRow
        [⟨"foo", "amd64", true, "foo-amd64.log"⟩, ⟨"foo", "arm64", true, "foo-arm64.log"⟩]
        ⟨"foo", "amd64", false, "foo-amd64.log"⟩).filter
        (fun r => !(keyMatches ⟨"foo", "amd64", false, "foo-amd64.log"⟩ r)) =
      [⟨"foo", "amd64", true, "foo-amd64.log"⟩,
        ⟨"foo", "arm64", true, "foo-arm64.log"⟩].filter
        (fun r => !(keyMatches ⟨"foo", "amd64", false, "foo-amd64.log"⟩ r)) :=
  ⟨by decide,
    (C3_upsert_preserves_invariant _ _ (by decide)).1,
    (C3_upsert_preserves_invariant _ _ (by decide)).2.1⟩

/-! ## C4 and C7: the worker retry loop -/

theorem submitRetry_eq (o : Nat → SendOutcome) :
    submitRetry o =
      if attemptOk (o 1) then (1, true, [])
      else if attemptOk (o 2) then (2, true, [10])
      else if attemptOk (o 3) then (3, true, [10, 10])
      else (3, false, [10, 10, 10]) := by
  cases h1 : worker_push_log (o 1) <;> cases h2 : worker_push_log (o 2) <;>
    cases h3 : worker_push_log (o 3) <;>
    simp [submitRetry, submitGo, attemptOk, h1, h2, h3]

theorem submitRetry_le_three (o : Nat → SendOutcome) : (submitRetry o).1 ≤ 3 := by
  rw [submitRetry_eq]
  split_ifs <;> decide

theorem submitRetry_delays (o : Nat → SendOutcome) :
    ∀ d ∈ (submitRetry o).2.2, d = 10 := by
  rw [submitRetry_eq]
  split_ifs <;> decide

theorem submitRetry_first_success (o : Nat → SendOutcome) (k : Nat)
    (hk1 : 1 ≤ k) (hk3 : k ≤ 3)
    (hfail : ∀ j, 1 ≤ j → j < k → attemptOk (o j) = false)
    (hsucc : attemptOk (o k) = true) :
    submitRetry o = (k, true, List.replicate (k - 1) 10) := by
  interval_cases k
  · simp [submitRetry_eq, hsucc]
  · have f1 : attemptOk (o 1) = false := hfail 1 (by omega) (by omega)
    simp [submitRetry_eq, f1, hsucc]
  · have f1 : attemptOk (o 1) = false := hfail 1 (by omega) (by omega)
    have f2 : attemptOk (o 2) = false := hfail 2 (by omega) (by omega)
    simp [submitRetry_eq, f1, f2, hsucc]

theorem submitRetry_all_fail (o : Nat → SendOutcome)
    (h : ∀ j, 1 ≤ j → j ≤ 3 → attemptOk (o j) = false) :
    submitRetry o = (3, false, [10, 10, 10]) := by
  have f1 : attemptOk (o 1) = false := h 1 (by omega) (by omega)
  have f2 : attemptOk (o 2) = false := h 2 (by omega) (by omega)
  have f3 : attemptOk (o 3) = false := h 3 (by omega) (by omega)
  simp [submitRetry_eq, f1, f2, f3]

/-- C4 counterexample: the claim says a collector response reporting a request
failure (an HTTP error status, e.g. from a store failure) counts as a failed
attempt and triggers the retry.  In the code `send` succeeds for any received
response and the status is never inspected, so an HTTP 500 response makes the
worker's `push_log` return `Ok`: the retry loop stops after a single attempt,
treating it as successful delivery. -/
theorem C4_counterexample_http_error_is_delivery :
    worker_push_log (SendOutcome.response 500) = Except.ok () ∧
    submitRetry (fun _ => SendOutcome.response 500) = (1, true, []) :=
  ⟨rfl, rfl⟩

/-- C4 (amended): only transport-level failures of the HTTP request (errors
returned by `send`) count as failed submission attempts and trigger the
worker's retry; any received HTTP response, whatever its status (including a
500 caused by a store failure), is treated as successful delivery and stops
the retry loop after that attempt. -/
theorem C4_amended_only_transport_failures_retry :
    (∀ msg, worker_push_log (SendOutcome.transportError msg) = Except.error msg) ∧
    (∀ status, worker_push_log (SendOutcome.response status) = Except.ok ()) ∧
    (∀ msgs : Nat → String,
      submitRetry (fun i => SendOutcome.transportError (msgs i)) =
        (3, false, [10, 10, 10])) ∧
    (∀ status, submitRetry (fun _ => SendOutcome.response status) = (1, true, [])) :=
  ⟨fun _ => rfl, fun _ => rfl, fun _ => rfl, fun _ => rfl⟩

/-- C7: one trace entry is produced for every package (a submission failure
never aborts the cycle), every package whose log compressed is recorded with
its retry outcome, and the retry loop makes at most 3 attempts, sleeps a
fixed 10 seconds after each failed attempt, stops at the first successful
attempt (after `k - 1` sleeps), and after 3 failed attempts ends with the
failure recorded, letting the cycle move on. -/
theorem C7_bounded_retry (pkgs : List String) (compressOk : String → Bool)
    (outcomes : String → Nat → SendOutcome) :
    (workCycle pkgs compressOk outcomes).length = pkgs.length ∧
    (∀ p ∈ pkgs, compressOk p = true →
      (p, some (submitRetry (outcomes p))) ∈ workCycle pkgs compressOk outcomes) ∧
    (∀ o : Nat → SendOutcome,
      (submitRetry o).1 ≤ 3 ∧
      (∀ d ∈ (submitRetry o).2.2, d = 10) ∧
      (∀ k, 1 ≤ k → k ≤ 3 →
        (∀ j, 1 ≤ j → j < k → attemptOk (o j) = false) →
        attemptOk (o k) = true →
        submitRetry o = (k, true, List.replicate (k - 1) 10)) ∧
      ((∀ j, 1 ≤ j → j ≤ 3 → attemptOk (o j) = false) →
        submitRetry o = (3, false, [10, 10, 10]))) := by
  refine ⟨by simp [workCycle], ?_,
    fun o => ⟨submitRetry_le_three o, submitRetry_delays o,
      fun k hk1 hk3 hfail hsucc =>
        submitRetry_first_success o k hk1 hk3 hfail hsucc,
      fun h => submitRetry_all_fail o h⟩⟩
  intro p hp hc
  unfold workCycle
  exact List.mem_map.mpr ⟨p, hp, by simp [hc]⟩

/-- Witness for C7 at an endpoint that always fails at the transport level:
exactly 3 attempts, then the cycle proceeds (the package still has its trace
entry). -/
theorem C7_witness :
    (workCycle ["foo"] (fun _ => true)
      (fun _ _ => SendOutcome.transportError "x")).length = 1 ∧
    submitRetry (fun _ => SendOutcome.transportError "x") = (3, false, [10, 10, 10]) :=
  ⟨(C7_bounded_retry ["foo"] (fun _ => true)
      (fun _ _ => SendOutcome.transportError "x")).1,
    ((C7_bounded_retry ["foo"] (fun _ => true)
        (fun _ _ => SendOutcome.transportError "x")).2.2
      (fun _ => SendOutcome.transportError "x")).2.2.2 (fun _ _ _ => rfl)⟩

/-! ## C8 -/

/-- C8 counterexample: the claim excludes exactly the entries whose path
contains a `.git` segment (plus `groups`/`assets`).  The code instead tests
the full path string for the substring `"/.git"`, which also excludes a
directory named `.github`: on a tree holding only `app/.github`, the claimed
listing contains `.github` but `list_packages` returns nothing. -/
theorem C8_counterexample_dotgithub_excluded :
    list_packages "TREE" [FSTree.dir "app" [FSTree.dir ".github" []]] = [] ∧
    claimedPackages [FSTree.dir "app" [FSTree.dir ".github" []]] = [".github"] :=
  ⟨rfl, rfl⟩

/-- C8 (amended): `list_packages` returns exactly the names of the
directories located two levels below the tree root, excluding any entry whose
full path string contains the substring `"/.git"` (hence any path component
beginning with `.git`, or a tree root whose own path contains `/.git`) and
any entry under the top-level directories `groups` or `assets`, while
including an ordinary two-level-deep package directory. -/
theorem C8_amended_listing_characterization (treeDir : String) (root : List FSTree)
    (n : String) :
    n ∈ list_packages treeDir root ↔
      ∃ c1 cs, FSTree.dir c1 cs ∈ root ∧
        (∃ gcs, FSTree.dir n gcs ∈ cs) ∧
        strContainsSub (treeDir ++ "/" ++ c1 ++ "/" ++ n) "/.git" = false ∧
        c1 ≠ "groups" ∧ c1 ≠ "assets" := by
  unfold list_packages walkDepth2
  rw [List.mem_filterMap]
  constructor
  · rintro ⟨ce, hce, hsome⟩
    rw [List.mem_flatMap] at hce
    rcases hce with ⟨t, ht, hmem⟩
    cases t with
    | file fn => simp at hmem
    | dir c1 cs =>
      rw [List.mem_map] at hmem
      rcases hmem with ⟨e, he, hpe⟩
      rw [← hpe] at hsome
      simp only at hsome
      by_cases hcond :
          (strContainsSub (treeDir ++ "/" ++ c1 ++ "/" ++ e.name) "/.git"
            || c1 == "groups" || c1 == "assets") = true
      · rw [if_pos hcond] at hsome
        cases hsome
      · rw [if_neg hcond] at hsome
        have hcf : (strContainsSub (treeDir ++ "/" ++ c1 ++ "/" ++ e.name) "/.git"
            || c1 == "groups" || c1 == "assets") = false := by
          simpa using hcond
        simp only [Bool.or_eq_false_iff] at hcf
        obtain ⟨⟨hgit, hgr⟩, has⟩ := hcf
        cases e with
        | file fn => simp [FSTree.isDir] at hsome
        | dir en ecs =>
          simp only [FSTree.isDir, FSTree.name, if_true] at hsome
          have hen : en = n := by
            simpa using hsome
          subst hen
          refine ⟨c1, cs, ht, ⟨ecs, he⟩, ?_, ?_, ?_⟩
          · simpa [FSTree.name] using hgit
          · simpa using hgr
          · simpa using has
  · rintro ⟨c1, cs, hc1, ⟨gcs, hgc⟩, hgit, hgr, has⟩
    refine ⟨(c1, FSTree.dir n gcs), ?_, ?_⟩
    · rw [List.mem_flatMap]
      exact ⟨FSTree.dir c1 cs, hc1, List.mem_map.mpr ⟨FSTree.dir n gcs, hgc, rfl⟩⟩
    · have hcond : (strContainsSub (treeDir ++ "/" ++ c1 ++ "/" ++
          (FSTree.dir n gcs).name) "/.git" || c1 == "groups" || c1 == "assets") = false := by
        simp [FSTree.name, hgit, hgr, has]
      simp [hcond, FSTree.isDir, FSTree.name]
      exact ⟨⟨hgit, hgr⟩, has⟩

/-! ## C9 -/

/-- C9: for every valid submission (secret accepted, the three required
fields parsed to `p`, `a`, `s`), the record handed to the store upsert has
`success` equal to the boolean test `s == "true"` — true exactly when the
text of the `success` field is the literal `"true"`, false for any other
value — and its `log` attribute is the derived filename `p ++ "-" ++ a ++
".log"`; that same filename keys the spawned blob write. -/
theorem C9_record_success_and_filename (secret : String) (req : Request)
    (st : CollectorState) (p a s L : String)
    (hs : secretMismatch secret req.secretHeader = false)
    (hp : parseFields req.parts = ⟨some p, some a, some s, L⟩) :
    push_log secret req st =
      ({ table := upsertRow st.table
            { name := p, arch := a, success := s == "true", log := p ++ "-" ++ a ++ ".log" },
         blobWrites := st.blobWrites ++ [(p ++ "-" ++ a ++ ".log", L)] },
        Except.error rowNotFoundMsg) ∧
    ((s == "true") = true ↔ s = "true") :=
  ⟨push_log_of_valid secret req st p a s L hs hp, by simp⟩

/-- Witness for C9: a concrete valid submission whose `success` text is
`"yes"`, stored as `success = false` with log filename `foo-amd64.log`. -/
theorem C9_witness :
    push_log "t"
        ⟨some (HeaderVal.readable "t"),
          [⟨some "package", "foo"⟩, ⟨some "arch", "amd64"⟩, ⟨some "success", "yes"⟩]⟩
        ⟨[], []⟩ =
      ({ table := upsertRow []
            { name := "foo", arch := "amd64", success := ("yes" == "true"),
              log := "foo-amd64.log" },
         blobWrites := [("foo-amd64.log", "")] },
        Except.error rowNotFoundMsg) :=
  (C9_record_success_and_filename "t"
      ⟨some (HeaderVal.readable "t"),
        [⟨some "package", "foo"⟩, ⟨some "arch", "amd64"⟩, ⟨some "success", "yes"⟩]⟩
      ⟨[], []⟩ "foo" "amd64" "yes" "" rfl rfl).1

/-! ## C10 -/

theorem parseStep_unrecognized (acc : ParsedFields) (f : FieldPart)
    (h : recognizedField f = false) : parseStep acc f = acc := by
  unfold recognizedField at h
  simp only [Bool.or_eq_false_iff] at h
  obtain ⟨⟨⟨h1, h2⟩, h3⟩, h4⟩ := h
  simp [parseStep, h1, h2, h3, h4]

theorem parseFields_go_filter (parts : List FieldPart) (acc : ParsedFields) :
    (parts.filter recognizedField).foldl parseStep acc = parts.foldl parseStep acc := by
  induction parts generalizing acc with
  | nil => rfl
  | cons f rest ih =>
    by_cases h : recognizedField f = true
    · simp [List.filter_cons, h, List.foldl_cons, ih]
    · have h2 : recognizedField f = false := by simpa using h
      simp [List.filter_cons, h2, List.foldl_cons, ih, parseStep_unrecognized acc f h2]

theorem parseFields_filter (parts : List FieldPart) :
    parseFields (parts.filter recognizedField) = parseFields parts :=
  parseFields_go_filter parts ⟨none, none, none, ""⟩

theorem parseFields_go_log (parts : List FieldPart) (acc : ParsedFields) :
    (parts.foldl parseStep acc).logContent =
      ((parts.filter fun f => f.name == some "log").map FieldPart.body).foldl
        (fun x y => x ++ y) acc.logContent := by
  induction parts generalizing acc with
  | nil => rfl
  | cons f rest ih =>
    simp only [List.foldl_cons, List.filter_cons]
    by_cases hl : (f.name == some "log") = true
    · have hname : f.name = some "log" := by simpa using hl
      have hstep : parseStep acc f = { acc with logContent := acc.logContent ++ f.body } := by
        simp [parseStep, hname]
      simp [hl, hstep, ih]
    · have hl2 : (f.name == some "log") = false := by simpa using hl
      have hlc : (parseStep acc f).logContent = acc.logContent := by
        unfold parseStep
        split_ifs with hA hB hC <;> rfl
      simp [hl2, ih, hlc]

theorem parseFields_logContent (parts : List FieldPart) :
    (parseFields parts).logContent =
      ((parts.filter fun f => f.name == some "log").map FieldPart.body).foldl
        (fun x y => x ++ y) "" :=
  parseFields_go_log parts ⟨none, none, none, ""⟩

/-- C10: the accumulated log is the in-order concatenation of the bodies of
all parts named `log` (so repeated `log` parts concatenate); parts with an
unrecognized field name are ignored — dropping them leaves the handler's
whole outcome unchanged; and the `log` field is optional — an authorized
request carrying the three required fields and no `log` part still reaches
the blob write (with empty content) and the store upsert instead of failing
validation. -/
theorem C10_log_concatenated_unknown_ignored
    (parts : List FieldPart) (secret : String) (req : Request) (st : CollectorState)
    (p a s : String) :
    (parseFields parts).logContent =
      ((parts.filter fun f => f.name == some "log").map FieldPart.body).foldl
        (fun x y => x ++ y) "" ∧
    push_log secret ⟨req.secretHeader, req.parts.filter recognizedField⟩ st =
      push_log secret req st ∧
    (secretMismatch secret req.secretHeader = false →
      (∀ f ∈ req.parts, f.name ≠ some "log") →
      (parseFields req.parts).pkgname = some p →
      (parseFields req.parts).arch = some a →
      (parseFields req.parts).success = some s →
      push_log secret req st =
        ({ table := upsertRow st.table
              { name := p, arch := a, success := s == "true",
                log := p ++ "-" ++ a ++ ".log" },
           blobWrites := st.blobWrites ++ [(p ++ "-" ++ a ++ ".log", "")] },
          Except.error rowNotFoundMsg)) := by
  refine ⟨parseFields_logContent parts, ?_, ?_⟩
  · simp [push_log, parseFields_filter]
  · intro hs hnl hp ha hsu
    have hfil : (req.parts.filter fun f => f.name == some "log") = [] := by
      rw [List.filter_eq_nil_iff]
      intro f hf
      simpa using hnl f hf
    have hlc : (parseFields req.parts).logContent = "" := by
      rw [parseFields_logContent, hfil]
      rfl
    have hq : parseFields req.parts = ⟨some p, some a, some s, ""⟩ := by
      cases hqq : parseFields req.parts with
      | mk pk ar su lc =>
        rw [hqq] at hp ha hsu hlc
        simp only at hp ha hsu hlc
        rw [hp, ha, hsu, hlc]
    exact push_log_of_valid secret req st p a s "" hs hq

/-- Witness for C10: two `log` parts concatenate; an unknown `junk` part is
dropped without changing the outcome; a request without any `log` part is
processed to the blob write and upsert. -/
theorem C10_witness :
    (parseFields
        [⟨some "log", "ab"⟩, ⟨some "junk", "zz"⟩, ⟨some "log", "cd"⟩]).logContent =
      ((([⟨some "log", "ab"⟩, ⟨some "junk", "zz"⟩, ⟨some "log", "cd"⟩] :
          List FieldPart).filter fun f => f.name == some "log").map
          FieldPart.body).foldl (fun x y => x ++ y) "" ∧
    push_log "t"
        ⟨some (HeaderVal.readable "t"),
          ([⟨some "package", "foo"⟩, ⟨some "junk", "x"⟩, ⟨some "arch", "amd64"⟩,
            ⟨some "success", "true"⟩] : List FieldPart).filter recognizedField⟩
        ⟨[], []⟩ =
      push_log "t"
        ⟨some (HeaderVal.readable "t"),
          [⟨some "package", "foo"⟩, ⟨some "junk", "x"⟩, ⟨some "arch", "amd64"⟩,
            ⟨some "success", "true"⟩]⟩
        ⟨[], []⟩ ∧
    push_log "t"
        ⟨some (HeaderVal.readable "t"),
          [⟨some "package", "foo"⟩, ⟨some "junk", "x"⟩, ⟨some "arch", "amd64"⟩,
            ⟨some "success", "true"⟩]⟩
        ⟨[], []⟩ =
      ({ table := upsertRow []
            { name := "foo", arch := "amd64", success := ("true" == "true"),
              log := "foo-amd64.log" },
         blobWrites := [("foo-amd64.log", "")] },
        Except.error rowNotFoundMsg) := by
  have h := C10_log_concatenated_unknown_ignored
    [⟨some "log", "ab"⟩, ⟨some "junk", "zz"⟩, ⟨some "log", "cd"⟩] "t"
    ⟨some (HeaderVal.readable "t"),
      [⟨some "package", "foo"⟩, ⟨some "junk", "x"⟩, ⟨some "arch", "amd64"⟩,
        ⟨some "success", "true"⟩]⟩
    ⟨[], []⟩ "foo" "amd64" "true"
  exact ⟨h.1, h.2.1, h.2.2 rfl (by decide) rfl rfl rfl⟩

end Reworkit
